import Mathlib

/-!
Verification of the interval-layout engine of the event-calendar repository.

The development shallowly embeds the pure date/layout functions of
`src/components/event-calendar/utils/calendar.ts` (grid builder
`getDaysInMonth`, day-membership filter `getEventsForDay`, slot allocator
`calculateEventLayout`, segment geometry `getEventInfo`) and the inline
per-day visibility logic of the month view in
`src/components/event-calendar/agenda-view.tsx`.

Modelling choices:
* A calendar date is a Gregorian triple `CalDate` (year : ℤ, 0-based month,
  1-based day), mirroring the dayjs date components.  `CalDate.dayNumber`
  converts a triple to the number of days since 1970-01-01 (the civil-from-
  days epoch used by dayjs timestamps), and `weekday` is the usual weekday
  with 0 = Sunday, matching the dayjs default locale used throughout the
  source (all `startOf('week')` calls are locale-aware; the default locale
  is Sunday-first).
* Instants (dayjs objects wrapping timestamps) are integers in milliseconds
  since the epoch; `dayOf` truncates an instant to its calendar day exactly
  as dayjs `startOf('day')` does for a fixed (UTC-like) offset.
* Events are records with `id`, millisecond `start`/`end`, an `allDay` flag
  and the transient `cellSlot` annotation (`Option ℕ`, `none` before layout).
-/

namespace EventCalendar

/-- Milliseconds in a day, dayjs `MILLISECONDS_A_DAY`. -/
def msPerDay : ℤ := 86400000

/-- Gregorian leap-year rule (proleptic, as used by dayjs/JS Date). -/
def isLeapYear (y : ℤ) : Bool := (y % 4 == 0 && y % 100 != 0) || y % 400 == 0

/-- Number of days of month `m` (0-based, dayjs convention) of year `y`. -/
def daysInMonthOf (y : ℤ) (m : ℕ) : ℕ :=
  if m = 1 then (if isLeapYear y then 29 else 28)
  else if m = 3 ∨ m = 5 ∨ m = 8 ∨ m = 10 then 30 else 31

/-- A Gregorian calendar date: year, 0-based month (0 = January) and
1-based day of month, matching dayjs `.year() / .month() / .date()`. -/
structure CalDate where
  year : ℤ
  month : ℕ
  day : ℕ
deriving Repr, DecidableEq

/-- The triple denotes an actual calendar date. -/
def CalDate.Valid (dt : CalDate) : Prop :=
  dt.month < 12 ∧ 1 ≤ dt.day ∧ dt.day ≤ daysInMonthOf dt.year dt.month

instance (dt : CalDate) : Decidable dt.Valid := by
  unfold CalDate.Valid; infer_instance

/-- Days since 1970-01-01 of a date triple (standard civil-to-days
conversion; all divisions are floor divisions by positive constants). -/
def CalDate.dayNumber (dt : CalDate) : ℤ :=
  365 * (dt.year - (if dt.month < 2 then 1 else 0))
    + (dt.year - (if dt.month < 2 then 1 else 0)) / 4
    - (dt.year - (if dt.month < 2 then 1 else 0)) / 100
    + (dt.year - (if dt.month < 2 then 1 else 0)) / 400
    + (153 * (if dt.month < 2 then (dt.month : ℤ) + 10 else (dt.month : ℤ) - 2) + 2) / 5
    + ((dt.day : ℤ) - 1) - 719468

/-- Calendar successor of a date (dayjs `add(1, 'day')` at day granularity). -/
def CalDate.nextDay (dt : CalDate) : CalDate :=
  if dt.day < daysInMonthOf dt.year dt.month then ⟨dt.year, dt.month, dt.day + 1⟩
  else if dt.month < 11 then ⟨dt.year, dt.month + 1, 1⟩
  else ⟨dt.year + 1, 0, 1⟩

/-- Calendar predecessor of a date (dayjs `subtract(1, 'day')`). -/
def CalDate.prevDay (dt : CalDate) : CalDate :=
  if 1 < dt.day then ⟨dt.year, dt.month, dt.day - 1⟩
  else if 0 < dt.month then ⟨dt.year, dt.month - 1, daysInMonthOf dt.year (dt.month - 1)⟩
  else ⟨dt.year - 1, 11, 31⟩

/-- dayjs `add(n, 'day')`. -/
def CalDate.addDays (dt : CalDate) : ℕ → CalDate
  | 0 => dt
  | n + 1 => (dt.nextDay).addDays n

/-- dayjs `subtract(n, 'day')`. -/
def CalDate.subDays (dt : CalDate) : ℕ → CalDate
  | 0 => dt
  | n + 1 => (dt.prevDay).subDays n

/-- Weekday of a day number, 0 = Sunday (1970-01-01 was a Thursday). -/
def weekdayOfDay (n : ℤ) : ℤ := (n + 4) % 7

/-- dayjs `.day()` of a date. -/
def CalDate.weekday (dt : CalDate) : ℤ := weekdayOfDay dt.dayNumber

theorem isLeapYear_eq_true (y : ℤ) :
    isLeapYear y = true ↔ ((y % 4 = 0 ∧ ¬ y % 100 = 0) ∨ y % 400 = 0) := by
  simp [isLeapYear]

theorem dayNumber_day_succ (y : ℤ) (m d : ℕ) :
    CalDate.dayNumber ⟨y, m, d + 1⟩ = CalDate.dayNumber ⟨y, m, d⟩ + 1 := by
  by_cases h2 : m < 2 <;>
    simp only [CalDate.dayNumber, h2, if_true, if_false, reduceIte] <;> push_cast <;> ring

/-- Rolling over from the last day of month `m < 11` to the first of `m + 1`
advances the day number by one. -/
theorem dayNumber_month_rollover (y : ℤ) (m : ℕ) (h11 : m < 11) :
    CalDate.dayNumber ⟨y, m + 1, 1⟩ = CalDate.dayNumber ⟨y, m, daysInMonthOf y m⟩ + 1 := by
  rcases Bool.eq_false_or_eq_true (isLeapYear y) with hL | hL
  · have hP : ((y % 4 = 0 ∧ ¬ y % 100 = 0) ∨ y % 400 = 0) := (isLeapYear_eq_true y).mp hL
    match m, h11 with
    | 0, _ | 1, _ | 2, _ | 3, _ | 4, _ | 5, _ | 6, _ | 7, _ | 8, _ | 9, _ | 10, _ =>
      simp only [CalDate.dayNumber, daysInMonthOf, hL] <;> norm_num <;> omega
  · have hP : ¬ ((y % 4 = 0 ∧ ¬ y % 100 = 0) ∨ y % 400 = 0) := by
      intro hc; rw [← isLeapYear_eq_true] at hc; rw [hL] at hc; cases hc
    match m, h11 with
    | 0, _ | 1, _ | 2, _ | 3, _ | 4, _ | 5, _ | 6, _ | 7, _ | 8, _ | 9, _ | 10, _ =>
      simp only [CalDate.dayNumber, daysInMonthOf, hL] <;> norm_num <;> omega

/-- Rolling over from December 31 to January 1 advances the day number by one. -/
theorem dayNumber_year_rollover (y : ℤ) :
    CalDate.dayNumber ⟨y + 1, 0, 1⟩ = CalDate.dayNumber ⟨y, 11, 31⟩ + 1 := by
  simp only [CalDate.dayNumber]
  norm_num
  omega

/-- The day-number conversion increases by one along the calendar successor. -/
theorem dayNumber_nextDay (dt : CalDate) (h : dt.Valid) :
    dt.nextDay.dayNumber = dt.dayNumber + 1 := by
  obtain ⟨y, m, d⟩ := dt
  obtain ⟨hm, hd1, hd2⟩ := h
  simp only at hm hd1 hd2
  unfold CalDate.nextDay
  simp only
  by_cases hin : d < daysInMonthOf y m
  · simp only [hin, if_true]
    exact dayNumber_day_succ y m d
  · rw [if_neg hin]
    have hd : d = daysInMonthOf y m := le_antisymm hd2 (by omega)
    subst hd
    by_cases h11 : m < 11
    · rw [if_pos h11]
      exact dayNumber_month_rollover y m h11
    · rw [if_neg h11]
      have hm11 : m = 11 := by omega
      subst hm11
      have : daysInMonthOf y 11 = 31 := by simp [daysInMonthOf]
      rw [this]
      exact dayNumber_year_rollover y

/-- The calendar successor of a valid date is valid. -/
theorem valid_nextDay (dt : CalDate) (h : dt.Valid) : dt.nextDay.Valid := by
  obtain ⟨y, m, d⟩ := dt
  obtain ⟨hm, hd1, hd2⟩ := h
  simp only at hm hd1 hd2
  unfold CalDate.nextDay
  simp only
  by_cases hin : d < daysInMonthOf y m
  · rw [if_pos hin]
    refine ⟨hm, ?_, ?_⟩
    · show 1 ≤ d + 1
      omega
    · show d + 1 ≤ daysInMonthOf y m
      omega
  · rw [if_neg hin]
    by_cases h11 : m < 11
    · rw [if_pos h11]
      refine ⟨?_, ?_, ?_⟩
      · show m + 1 < 12
        omega
      · show 1 ≤ 1
        exact le_refl 1
      · show 1 ≤ daysInMonthOf y (m + 1)
        simp only [daysInMonthOf]
        split_ifs <;> omega
    · rw [if_neg h11]
      refine ⟨?_, ?_, ?_⟩
      · show (0 : ℕ) < 12
        omega
      · show 1 ≤ 1
        exact le_refl 1
      · show 1 ≤ daysInMonthOf (y + 1) 0
        simp [daysInMonthOf]

/-- The calendar predecessor of a valid date is valid. -/
theorem valid_prevDay (dt : CalDate) (h : dt.Valid) : dt.prevDay.Valid := by
  obtain ⟨y, m, d⟩ := dt
  obtain ⟨hm, hd1, hd2⟩ := h
  simp only at hm hd1 hd2
  unfold CalDate.prevDay
  simp only
  by_cases h1 : 1 < d
  · rw [if_pos h1]
    refine ⟨hm, ?_, ?_⟩
    · show 1 ≤ d - 1
      omega
    · show d - 1 ≤ daysInMonthOf y m
      omega
  · rw [if_neg h1]
    by_cases hm0 : 0 < m
    · rw [if_pos hm0]
      refine ⟨?_, ?_, ?_⟩
      · show m - 1 < 12
        omega
      · show 1 ≤ daysInMonthOf y (m - 1)
        simp only [daysInMonthOf]
        split_ifs <;> omega
      · show daysInMonthOf y (m - 1) ≤ daysInMonthOf y (m - 1)
        exact le_refl _
    · rw [if_neg hm0]
      refine ⟨?_, ?_, ?_⟩
      · show (11 : ℕ) < 12
        omega
      · show 1 ≤ 31
        omega
      · show 31 ≤ daysInMonthOf (y - 1) 11
        simp [daysInMonthOf]

/-- The function `nextDay` undoes `prevDay` on valid dates. -/
theorem nextDay_prevDay (dt : CalDate) (h : dt.Valid) : dt.prevDay.nextDay = dt := by
  obtain ⟨y, m, d⟩ := dt
  obtain ⟨hm, hd1, hd2⟩ := h
  simp only at hm hd1 hd2
  unfold CalDate.prevDay
  simp only
  by_cases h1 : 1 < d
  · rw [if_pos h1]
    unfold CalDate.nextDay
    dsimp only
    rw [if_pos (show d - 1 < daysInMonthOf y m by omega)]
    simp only [CalDate.mk.injEq]
    exact ⟨trivial, trivial, by omega⟩
  · rw [if_neg h1]
    have hd : d = 1 := by omega
    subst hd
    by_cases hm0 : 0 < m
    · rw [if_pos hm0]
      unfold CalDate.nextDay
      dsimp only
      rw [if_neg (lt_irrefl _)]
      rw [if_pos (show m - 1 < 11 by omega)]
      simp only [CalDate.mk.injEq]
      exact ⟨trivial, by omega, trivial⟩
    · rw [if_neg hm0]
      have hmz : m = 0 := by omega
      subst hmz
      unfold CalDate.nextDay
      dsimp only
      rw [if_neg (by simp [daysInMonthOf])]
      rw [if_neg (by omega)]
      simp only [CalDate.mk.injEq]
      exact ⟨by omega, trivial, trivial⟩

/-- The day-number conversion decreases by one along the calendar predecessor. -/
theorem dayNumber_prevDay (dt : CalDate) (h : dt.Valid) :
    dt.prevDay.dayNumber = dt.dayNumber - 1 := by
  have h1 := dayNumber_nextDay dt.prevDay (valid_prevDay dt h)
  rw [nextDay_prevDay dt h] at h1
  omega

theorem valid_addDays (dt : CalDate) (h : dt.Valid) (n : ℕ) : (dt.addDays n).Valid := by
  induction n generalizing dt with
  | zero => exact h
  | succ n ih => exact ih dt.nextDay (valid_nextDay dt h)

theorem dayNumber_addDays (dt : CalDate) (h : dt.Valid) (n : ℕ) :
    (dt.addDays n).dayNumber = dt.dayNumber + n := by
  induction n generalizing dt with
  | zero => simp [CalDate.addDays]
  | succ n ih =>
    show ((dt.nextDay).addDays n).dayNumber = _
    rw [ih dt.nextDay (valid_nextDay dt h), dayNumber_nextDay dt h]
    push_cast
    ring

theorem valid_subDays (dt : CalDate) (h : dt.Valid) (n : ℕ) : (dt.subDays n).Valid := by
  induction n generalizing dt with
  | zero => exact h
  | succ n ih => exact ih dt.prevDay (valid_prevDay dt h)

theorem dayNumber_subDays (dt : CalDate) (h : dt.Valid) (n : ℕ) :
    (dt.subDays n).dayNumber = dt.dayNumber - n := by
  induction n generalizing dt with
  | zero => simp [CalDate.subDays]
  | succ n ih =>
    show ((dt.prevDay).subDays n).dayNumber = _
    rw [ih dt.prevDay (valid_prevDay dt h), dayNumber_prevDay dt h]
    push_cast
    ring

theorem addDays_succ_out (dt : CalDate) (n : ℕ) :
    dt.addDays (n + 1) = (dt.addDays n).nextDay := by
  induction n generalizing dt with
  | zero => rfl
  | succ n ih =>
    show (dt.nextDay).addDays (n + 1) = _
    rw [ih dt.nextDay]
    rfl

theorem subDays_succ_out (dt : CalDate) (n : ℕ) :
    dt.subDays (n + 1) = (dt.subDays n).prevDay := by
  induction n generalizing dt with
  | zero => rfl
  | succ n ih =>
    show (dt.prevDay).subDays (n + 1) = _
    rw [ih dt.prevDay]
    rfl

theorem addDays_add (dt : CalDate) (a b : ℕ) :
    dt.addDays (a + b) = (dt.addDays a).addDays b := by
  induction b generalizing dt with
  | zero => rfl
  | succ b ih =>
    rw [show a + (b + 1) = (a + b) + 1 by omega, addDays_succ_out, ih dt, ← addDays_succ_out]

/-- Adding back `j ≤ k` days after subtracting `k` lands on `subDays (k - j)`. -/
theorem addDays_subDays_cancel (dt : CalDate) (h : dt.Valid) :
    ∀ j k : ℕ, j ≤ k → (dt.subDays k).addDays j = dt.subDays (k - j) := by
  intro j
  induction j with
  | zero => intro k _; rfl
  | succ j ih =>
    intro k hjk
    have hk : k = (k - 1) + 1 := by omega
    have hnext : ((dt.subDays k).addDays 1) = dt.subDays (k - 1) := by
      show (dt.subDays k).nextDay.addDays 0 = _
      rw [hk, subDays_succ_out]
      exact nextDay_prevDay _ (valid_subDays dt h (k - 1))
    have : j + 1 = 1 + j := by omega
    rw [this, addDays_add, hnext, ih (k - 1) (by omega)]
    congr 1
    omega

theorem daysInMonthOf_bounds (y : ℤ) (m : ℕ) :
    28 ≤ daysInMonthOf y m ∧ daysInMonthOf y m ≤ 31 := by
  unfold daysInMonthOf
  split_ifs <;> omega

theorem weekday_bounds (dt : CalDate) : 0 ≤ dt.weekday ∧ dt.weekday < 7 := by
  unfold CalDate.weekday weekdayOfDay
  omega

/-- dayjs `startOf('month')`. -/
def monthFirstDay (date : CalDate) : CalDate := ⟨date.year, date.month, 1⟩

/-- dayjs `endOf('month')` at day granularity. -/
def monthLastDay (date : CalDate) : CalDate :=
  ⟨date.year, date.month, daysInMonthOf date.year date.month⟩

theorem monthFirstDay_valid (date : CalDate) (h : date.Valid) : (monthFirstDay date).Valid := by
  refine ⟨h.1, le_refl 1, ?_⟩
  show 1 ≤ daysInMonthOf date.year date.month
  have := daysInMonthOf_bounds date.year date.month
  omega

theorem monthLastDay_valid (date : CalDate) (h : date.Valid) : (monthLastDay date).Valid := by
  refine ⟨h.1, ?_, le_refl _⟩
  show 1 ≤ daysInMonthOf date.year date.month
  have := daysInMonthOf_bounds date.year date.month
  omega

theorem dayNumber_within_month (y : ℤ) (m d : ℕ) :
    CalDate.dayNumber ⟨y, m, d⟩ = CalDate.dayNumber ⟨y, m, 1⟩ + (d - 1) := by
  by_cases h2 : m < 2 <;>
    simp only [CalDate.dayNumber, h2, if_true, if_false, reduceIte] <;> push_cast <;> ring

/-- One cell of the month grid (`CalendarCell` in `types/calendar.ts`). -/
structure CalendarCell where
  date : CalDate
  isCurrentMonth : Bool
  isToday : Bool
deriving Repr, DecidableEq

/-- The cell pushed for `currentDay` in the `getDaysInMonth` loop. -/
def mkCell (today date currentDay : CalDate) : CalendarCell :=
  { date := currentDay
    isCurrentMonth := currentDay.month == date.month
    isToday := currentDay.dayNumber == today.dayNumber }

/-- The nested week loop of `getDaysInMonth`: each iteration emits the 7
cells starting at the running cursor and advances the cursor by 7 days. -/
def buildWeeks (today date : CalDate) : ℕ → CalDate → List (List CalendarCell)
  | 0, _ => []
  | n + 1, currentDay =>
    ((List.range 7).map fun j => mkCell today date (currentDay.addDays j))
      :: buildWeeks today date n (currentDay.addDays 7)

/-- The `firstDayOfCalendar` of `getDaysInMonth`: dayjs
`date.startOf('month').startOf('week')` (Sunday-first default locale, so
start of week subtracts the weekday index). -/
def calFirstDay (date : CalDate) : CalDate :=
  (monthFirstDay date).subDays (monthFirstDay date).weekday.toNat

/-- The `lastDayOfCalendar` of `getDaysInMonth`: dayjs
`date.endOf('month').endOf('week')` at day granularity (end of week adds
`6 - weekday` days). -/
def calLastDay (date : CalDate) : CalDate :=
  (monthLastDay date).addDays (6 - (monthLastDay date).weekday).toNat

/-- The quantity `totalDaysInGrid = lastDayOfCalendar.diff(firstDayOfCalendar, 'day') + 1`. -/
def totalGridDays (date : CalDate) : ℤ :=
  (calLastDay date).dayNumber - (calFirstDay date).dayNumber + 1

/-- Function `getDaysInMonth` of `utils/calendar.ts`, additionally reporting in the
first component whether the `console.warn` branch (which returns the empty
grid) was taken. -/
def getDaysInMonthChecked (today date : CalDate) : Bool × List (List CalendarCell) :=
  if totalGridDays date ≤ 0 ∨ totalGridDays date % 7 ≠ 0 then (true, [])
  else (false, buildWeeks today date (totalGridDays date / 7).toNat (calFirstDay date))

/-- Function `getDaysInMonth` of `utils/calendar.ts` (grid part). -/
def getDaysInMonth (today date : CalDate) : List (List CalendarCell) :=
  (getDaysInMonthChecked today date).2

theorem buildWeeks_length (today date : CalDate) (n : ℕ) (cur : CalDate) :
    (buildWeeks today date n cur).length = n := by
  induction n generalizing cur with
  | zero => rfl
  | succ n ih => simp [buildWeeks, ih]

theorem buildWeeks_week_length (today date : CalDate) (n : ℕ) (cur : CalDate) :
    ∀ w ∈ buildWeeks today date n cur, w.length = 7 := by
  induction n generalizing cur with
  | zero => intro w hw; cases hw
  | succ n ih =>
    intro w hw
    rcases List.mem_cons.mp hw with h | h
    · subst h; simp
    · exact ih (cur.addDays 7) w h

theorem buildWeeks_join (today date : CalDate) (n : ℕ) (cur : CalDate) :
    (buildWeeks today date n cur).flatten
      = (List.range (7 * n)).map fun k => mkCell today date (cur.addDays k) := by
  induction n generalizing cur with
  | zero => rfl
  | succ n ih =>
    simp only [buildWeeks, List.flatten_cons]
    rw [ih (cur.addDays 7)]
    rw [show 7 * (n + 1) = 7 + 7 * n by omega, List.range_add, List.map_append,
      List.map_map]
    have h2 : ∀ k ∈ List.range (7 * n),
        mkCell today date ((cur.addDays 7).addDays k)
          = ((fun k => mkCell today date (cur.addDays k)) ∘ (fun x => 7 + x)) k := by
      intro k _
      simp only [Function.comp_apply]
      rw [← addDays_add]
    rw [List.map_congr_left h2]

theorem calFirstDay_valid (date : CalDate) (h : date.Valid) : (calFirstDay date).Valid :=
  valid_subDays _ (monthFirstDay_valid date h) _

theorem calFirstDay_dayNumber (date : CalDate) (h : date.Valid) :
    (calFirstDay date).dayNumber
      = (monthFirstDay date).dayNumber - (monthFirstDay date).weekday := by
  unfold calFirstDay
  rw [dayNumber_subDays _ (monthFirstDay_valid date h)]
  have hb := weekday_bounds (monthFirstDay date)
  rw [Int.toNat_of_nonneg hb.1]

theorem calLastDay_dayNumber (date : CalDate) (h : date.Valid) :
    (calLastDay date).dayNumber
      = (monthLastDay date).dayNumber + (6 - (monthLastDay date).weekday) := by
  unfold calLastDay
  rw [dayNumber_addDays _ (monthLastDay_valid date h)]
  have hb := weekday_bounds (monthLastDay date)
  rw [Int.toNat_of_nonneg (by omega)]

theorem monthLastDay_dayNumber (date : CalDate) :
    (monthLastDay date).dayNumber
      = (monthFirstDay date).dayNumber
          + ((daysInMonthOf date.year date.month : ℤ) - 1) := by
  unfold monthLastDay monthFirstDay
  exact dayNumber_within_month date.year date.month _

/-- The grid size is a positive multiple of 7 between 28 and 42. -/
theorem totalGridDays_spec (date : CalDate) (h : date.Valid) :
    totalGridDays date % 7 = 0 ∧ 28 ≤ totalGridDays date ∧ totalGridDays date ≤ 42 := by
  unfold totalGridDays
  rw [calFirstDay_dayNumber date h, calLastDay_dayNumber date h, monthLastDay_dayNumber date]
  have hL := daysInMonthOf_bounds date.year date.month
  unfold CalDate.weekday weekdayOfDay
  rw [monthLastDay_dayNumber date]
  omega

/-- On valid dates the `console.warn` guard never fires and the grid is
`buildWeeks` of `totalGridDays / 7` weeks. -/
theorem getDaysInMonth_eq_buildWeeks (today date : CalDate) (h : date.Valid) :
    getDaysInMonthChecked today date
      = (false, buildWeeks today date (totalGridDays date / 7).toNat (calFirstDay date)) := by
  unfold getDaysInMonthChecked
  have hs := totalGridDays_spec date h
  rw [if_neg (by omega)]

theorem totalGridDays_ge (date : CalDate) (h : date.Valid) :
    (monthFirstDay date).weekday + (daysInMonthOf date.year date.month : ℤ)
      ≤ totalGridDays date := by
  unfold totalGridDays
  rw [calFirstDay_dayNumber date h, calLastDay_dayNumber date h, monthLastDay_dayNumber date]
  have := weekday_bounds (monthLastDay date)
  omega

/-- Claim C2: for every reference date, `getDaysInMonth` returns between 4
and 6 weeks, each inner array having exactly 7 cells, so the total cell
count is a multiple of 7; the grid covers the whole calendar month (every
day of the reference month appears as a cell; padding cells are
characterised by the padding theorem for C9). -/
theorem getDaysInMonth_shape (today date : CalDate) (h : date.Valid) :
    (4 ≤ (getDaysInMonth today date).length ∧ (getDaysInMonth today date).length ≤ 6)
    ∧ (∀ w ∈ getDaysInMonth today date, w.length = 7)
    ∧ (getDaysInMonth today date).flatten.length % 7 = 0
    ∧ (∀ d : ℕ, 1 ≤ d → d ≤ daysInMonthOf date.year date.month →
        ∃ c ∈ (getDaysInMonth today date).flatten,
          c.date.dayNumber = CalDate.dayNumber ⟨date.year, date.month, d⟩) := by
  have hs := totalGridDays_spec date h
  have hgrid : getDaysInMonth today date
      = buildWeeks today date (totalGridDays date / 7).toNat (calFirstDay date) := by
    unfold getDaysInMonth
    rw [getDaysInMonth_eq_buildWeeks today date h]
  refine ⟨⟨?_, ?_⟩, ?_, ?_, ?_⟩
  · rw [hgrid, buildWeeks_length]; omega
  · rw [hgrid, buildWeeks_length]; omega
  · rw [hgrid]; exact buildWeeks_week_length today date _ _
  · rw [hgrid, buildWeeks_join]
    simp only [List.length_map, List.length_range]
    omega
  · intro d hd1 hd2
    rw [hgrid, buildWeeks_join]
    set w1n := (monthFirstDay date).weekday.toNat with hw1n
    refine ⟨mkCell today date ((calFirstDay date).addDays (w1n + (d - 1))), ?_, ?_⟩
    · apply List.mem_map_of_mem
      apply List.mem_range.mpr
      have hge := totalGridDays_ge date h
      have hwb := weekday_bounds (monthFirstDay date)
      have hcast : (w1n : ℤ) = (monthFirstDay date).weekday := Int.toNat_of_nonneg hwb.1
      omega
    · show ((calFirstDay date).addDays (w1n + (d - 1))).dayNumber = _
      rw [dayNumber_addDays _ (calFirstDay_valid date h), calFirstDay_dayNumber date h]
      have hwb := weekday_bounds (monthFirstDay date)
      have hcast : (w1n : ℤ) = (monthFirstDay date).weekday := Int.toNat_of_nonneg hwb.1
      rw [show (CalDate.mk date.year date.month d) = ⟨date.year, date.month, d⟩ from rfl,
        dayNumber_within_month date.year date.month d]
      have : (monthFirstDay date).dayNumber = CalDate.dayNumber ⟨date.year, date.month, 1⟩ := rfl
      omega

/-- Witness for C2 at the concrete reference date 2025-10-12. -/
theorem getDaysInMonth_shape_witness :
    4 ≤ (getDaysInMonth ⟨2025, 9, 12⟩ ⟨2025, 9, 12⟩).length :=
  (getDaysInMonth_shape ⟨2025, 9, 12⟩ ⟨2025, 9, 12⟩ (by decide)).1.1

/-- Claim C8: the empty grid is only ever returned together with the
warning (the defect is surfaced, not silent), and for no valid reference
date does `getDaysInMonth` actually return an empty grid in place of a
4-6 week grid: the guard condition is never true on real dates. -/
theorem getDaysInMonth_warn_guard (today date : CalDate) :
    ((getDaysInMonthChecked today date).2 = [] → (getDaysInMonthChecked today date).1 = true)
    ∧ (date.Valid →
        (getDaysInMonthChecked today date).1 = false ∧ getDaysInMonth today date ≠ []) := by
  constructor
  · intro hempty
    by_cases hg : totalGridDays date ≤ 0 ∨ totalGridDays date % 7 ≠ 0
    · unfold getDaysInMonthChecked
      rw [if_pos hg]
    · unfold getDaysInMonthChecked at hempty
      rw [if_neg hg] at hempty
      simp only at hempty
      exfalso
      have hlen := buildWeeks_length today date (totalGridDays date / 7).toNat (calFirstDay date)
      rw [hempty] at hlen
      simp only [List.length_nil] at hlen
      omega
  · intro hv
    have heq := getDaysInMonth_eq_buildWeeks today date hv
    have hs := totalGridDays_spec date hv
    constructor
    · rw [heq]
    · unfold getDaysInMonth
      rw [heq]
      intro hc
      simp only at hc
      have hlen := buildWeeks_length today date (totalGridDays date / 7).toNat (calFirstDay date)
      rw [hc] at hlen
      simp only [List.length_nil] at hlen
      omega

/-- Witness for C8 at the concrete reference date 2024-02-29. -/
theorem getDaysInMonth_warn_guard_witness :
    (getDaysInMonthChecked ⟨2024, 1, 29⟩ ⟨2024, 1, 29⟩).1 = false :=
  ((getDaysInMonth_warn_guard ⟨2024, 1, 29⟩ ⟨2024, 1, 29⟩).2 (by decide)).1

/-- Adding days within one month just advances the day-of-month field. -/
theorem addDays_within_month (y : ℤ) (m : ℕ) (d : ℕ) :
    ∀ t : ℕ, 1 ≤ d → d + t ≤ daysInMonthOf y m →
      CalDate.addDays ⟨y, m, d⟩ t = ⟨y, m, d + t⟩ := by
  intro t
  induction t generalizing d with
  | zero => intro _ _; rfl
  | succ t ih =>
    intro hd1 hdt
    show CalDate.addDays (CalDate.nextDay ⟨y, m, d⟩) t = _
    have hnext : CalDate.nextDay ⟨y, m, d⟩ = ⟨y, m, d + 1⟩ := by
      unfold CalDate.nextDay
      dsimp only
      rw [if_pos (by omega)]
    rw [hnext]
    have := ih (d + 1) (by omega) (by omega)
    rw [this]
    congr 1
    omega

/-- Year holding the month before month `m` of year `y`. -/
def prevMonthYear (y : ℤ) (m : ℕ) : ℤ := if m = 0 then y - 1 else y

/-- Index of the month before month `m` (0-based, wrapping). -/
def prevMonthIdx (m : ℕ) : ℕ := if m = 0 then 11 else m - 1

/-- Year holding the month after month `m` of year `y`. -/
def nextMonthYear (y : ℤ) (m : ℕ) : ℤ := if m = 11 then y + 1 else y

/-- Index of the month after month `m` (0-based, wrapping). -/
def nextMonthIdx (m : ℕ) : ℕ := if m = 11 then 0 else m + 1

/-- Stepping up to 6 days back from the first of a month lands in the last
6 days of the previous month. -/
theorem subDays_from_month_first (y : ℤ) (m : ℕ) (hm : m < 12) :
    ∀ j : ℕ, 1 ≤ j → j ≤ 6 →
      CalDate.subDays ⟨y, m, 1⟩ j
        = ⟨prevMonthYear y m, prevMonthIdx m,
            daysInMonthOf (prevMonthYear y m) (prevMonthIdx m) + 1 - j⟩ := by
  intro j
  induction j with
  | zero => intro h1 _; cases h1
  | succ j ih =>
    intro _ hj6
    by_cases hj0 : j = 0
    · subst hj0
      show CalDate.prevDay ⟨y, m, 1⟩ = _
      unfold CalDate.prevDay
      dsimp only
      rw [if_neg (by omega)]
      by_cases hm0 : m = 0
      · subst hm0
        rw [if_neg (by omega)]
        simp [prevMonthYear, prevMonthIdx, daysInMonthOf]
      · rw [if_pos (by omega)]
        simp only [prevMonthYear, prevMonthIdx, if_neg hm0]
        congr 1
        all_goals omega
    · rw [subDays_succ_out]
      rw [ih (by omega) (by omega)]
      unfold CalDate.prevDay
      dsimp only
      have hPL := daysInMonthOf_bounds (prevMonthYear y m) (prevMonthIdx m)
      rw [if_pos (by omega)]
      congr 1
      all_goals omega

/-- Stepping up to 6 days forward from the last of a month lands in the
first 6 days of the next month. -/
theorem addDays_from_month_last (y : ℤ) (m : ℕ) (hm : m < 12) :
    ∀ j : ℕ, 1 ≤ j → j ≤ 6 →
      CalDate.addDays ⟨y, m, daysInMonthOf y m⟩ j
        = ⟨nextMonthYear y m, nextMonthIdx m, j⟩ := by
  intro j
  induction j with
  | zero => intro h1 _; cases h1
  | succ j ih =>
    intro _ hj6
    by_cases hj0 : j = 0
    · subst hj0
      show CalDate.nextDay ⟨y, m, daysInMonthOf y m⟩ = _
      unfold CalDate.nextDay
      dsimp only
      rw [if_neg (by omega)]
      by_cases hm11 : m = 11
      · subst hm11
        rw [if_neg (by omega)]
        simp [nextMonthYear, nextMonthIdx]
      · rw [if_pos (by omega)]
        simp only [nextMonthYear, nextMonthIdx, if_neg hm11]
    · rw [addDays_succ_out]
      rw [ih (by omega) (by omega)]
      unfold CalDate.nextDay
      dsimp only
      have hNL := daysInMonthOf_bounds (nextMonthYear y m) (nextMonthIdx m)
      rw [if_pos (by omega)]

theorem totalGridDays_le (date : CalDate) (h : date.Valid) :
    totalGridDays date
      ≤ (monthFirstDay date).weekday + (daysInMonthOf date.year date.month : ℤ) + 6 := by
  unfold totalGridDays
  rw [calFirstDay_dayNumber date h, calLastDay_dayNumber date h, monthLastDay_dayNumber date]
  have := weekday_bounds (monthLastDay date)
  omega

/-- Every cell of the month grid is the cell built for `calFirstDay + k`. -/
theorem mem_grid_flatten (today date : CalDate) (h : date.Valid) (c : CalendarCell)
    (hc : c ∈ (getDaysInMonth today date).flatten) :
    ∃ k : ℕ, (k : ℤ) < totalGridDays date
      ∧ c = mkCell today date ((calFirstDay date).addDays k) := by
  have hs := totalGridDays_spec date h
  have hgrid : getDaysInMonth today date
      = buildWeeks today date (totalGridDays date / 7).toNat (calFirstDay date) := by
    unfold getDaysInMonth
    rw [getDaysInMonth_eq_buildWeeks today date h]
  rw [hgrid, buildWeeks_join] at hc
  rcases List.mem_map.mp hc with ⟨k, hk, rfl⟩
  have hkr := List.mem_range.mp hk
  exact ⟨k, by omega, rfl⟩

theorem prevMonthIdx_ne (m : ℕ) (hm : m < 12) : prevMonthIdx m ≠ m := by
  unfold prevMonthIdx
  split_ifs <;> omega

theorem nextMonthIdx_ne (m : ℕ) (hm : m < 12) : nextMonthIdx m ≠ m := by
  unfold nextMonthIdx
  split_ifs <;> omega

/-- Claim C9 (amended): the cells with `isCurrentMonth = false` are exactly
the cells dated outside the reference month, and every such cell belongs to
an adjacent month: its month index is the previous/next month's index and
its date is within the 6 days before the month's first day, respectively
within the 6 days after its last day.  (There need not be exactly one such
cell: the February 2026 grid has none.) -/
theorem getDaysInMonth_padding (today date : CalDate) (h : date.Valid) :
    ∀ c ∈ (getDaysInMonth today date).flatten,
      (c.isCurrentMonth = false ↔
        (c.date.dayNumber < (monthFirstDay date).dayNumber
          ∨ (monthLastDay date).dayNumber < c.date.dayNumber))
      ∧ (c.date.dayNumber < (monthFirstDay date).dayNumber →
          c.date.month = prevMonthIdx date.month
            ∧ (monthFirstDay date).dayNumber - 7 < c.date.dayNumber)
      ∧ ((monthLastDay date).dayNumber < c.date.dayNumber →
          c.date.month = nextMonthIdx date.month
            ∧ c.date.dayNumber < (monthLastDay date).dayNumber + 7) := by
  intro c hc
  obtain ⟨k, hkT, rfl⟩ := mem_grid_flatten today date h c hc
  simp only [mkCell]
  set w1n := (monthFirstDay date).weekday.toNat with hw1
  have hwb := weekday_bounds (monthFirstDay date)
  have hw1c : (w1n : ℤ) = (monthFirstDay date).weekday := Int.toNat_of_nonneg hwb.1
  have hw1le : w1n ≤ 6 := by omega
  have hLb := daysInMonthOf_bounds date.year date.month
  have hTle := totalGridDays_le date h
  have hfv := monthFirstDay_valid date h
  have hnL : (monthLastDay date).dayNumber
      = (monthFirstDay date).dayNumber + ((daysInMonthOf date.year date.month : ℤ) - 1) :=
    monthLastDay_dayNumber date
  by_cases hcase1 : k < w1n
  · -- leading padding cell, previous month
    have hdate : ((calFirstDay date).addDays k) = (monthFirstDay date).subDays (w1n - k) := by
      unfold calFirstDay
      exact addDays_subDays_cancel (monthFirstDay date) hfv k w1n (by omega)
    have hsub : (monthFirstDay date).subDays (w1n - k)
        = ⟨prevMonthYear date.year date.month, prevMonthIdx date.month,
            daysInMonthOf (prevMonthYear date.year date.month) (prevMonthIdx date.month)
              + 1 - (w1n - k)⟩ :=
      subDays_from_month_first date.year date.month h.1 (w1n - k) (by omega) (by omega)
    have hdn : ((calFirstDay date).addDays k).dayNumber
        = (monthFirstDay date).dayNumber - ((w1n : ℤ) - (k : ℤ)) := by
      rw [hdate, dayNumber_subDays _ hfv]
      omega
    have hmon : ((calFirstDay date).addDays k).month = prevMonthIdx date.month := by
      rw [hdate, hsub]
    have hne := prevMonthIdx_ne date.month h.1
    refine ⟨?_, ?_, ?_⟩
    · rw [hmon, hdn]
      simp only [beq_eq_false_iff_ne, ne_eq, hne, not_false_eq_true, true_iff]
      left
      omega
    · intro _
      rw [hmon, hdn]
      exact ⟨rfl, by omega⟩
    · intro hcon
      rw [hdn] at hcon
      omega
  · -- inside the month or trailing padding
    obtain ⟨q, rfl⟩ : ∃ q, k = w1n + q := ⟨k - w1n, by omega⟩
    have hdate : ((calFirstDay date).addDays (w1n + q)) = (monthFirstDay date).addDays q := by
      unfold calFirstDay
      rw [addDays_add]
      have hcancel := addDays_subDays_cancel (monthFirstDay date) hfv w1n w1n (le_refl _)
      have h0 : w1n - w1n = 0 := by omega
      rw [h0] at hcancel
      rw [hcancel]
      rfl
    by_cases hcase2 : q + 1 ≤ daysInMonthOf date.year date.month
    · -- cell inside the reference month
      have hin : (monthFirstDay date).addDays q = ⟨date.year, date.month, 1 + q⟩ := by
        unfold monthFirstDay
        exact addDays_within_month date.year date.month 1 q (le_refl 1) (by omega)
      have hdn : ((calFirstDay date).addDays (w1n + q)).dayNumber
          = (monthFirstDay date).dayNumber + (q : ℤ) := by
        rw [hdate, dayNumber_addDays _ hfv]
      have hmon : ((calFirstDay date).addDays (w1n + q)).month = date.month := by
        rw [hdate, hin]
      refine ⟨?_, ?_, ?_⟩
      · rw [hmon, hdn]
        simp only [beq_self_eq_true]
        constructor
        · intro hcon
          cases hcon
        · intro hcon
          exfalso
          omega
      · intro hcon
        rw [hdn] at hcon
        omega
      · intro hcon
        rw [hdn] at hcon
        omega
    · -- trailing padding cell, next month
      obtain ⟨j, rfl⟩ : ∃ j, q = (daysInMonthOf date.year date.month - 1) + (j + 1) :=
        ⟨q - daysInMonthOf date.year date.month, by omega⟩
      have hlast : (monthFirstDay date).addDays (daysInMonthOf date.year date.month - 1)
          = monthLastDay date := by
        unfold monthFirstDay monthLastDay
        rw [addDays_within_month date.year date.month 1 _ (le_refl 1) (by omega)]
        congr 1
        omega
      have hj6 : j + 1 ≤ 6 := by omega
      have hadd : (monthFirstDay date).addDays ((daysInMonthOf date.year date.month - 1) + (j + 1))
          = ⟨nextMonthYear date.year date.month, nextMonthIdx date.month, j + 1⟩ := by
        rw [addDays_add, hlast]
        exact addDays_from_month_last date.year date.month h.1 (j + 1) (by omega) hj6
      have hdn : ((calFirstDay date).addDays (w1n + ((daysInMonthOf date.year date.month - 1) + (j + 1)))).dayNumber
          = (monthLastDay date).dayNumber + ((j : ℤ) + 1) := by
        rw [hdate, dayNumber_addDays _ hfv]
        push_cast
        omega
      have hmon : ((calFirstDay date).addDays (w1n + ((daysInMonthOf date.year date.month - 1) + (j + 1)))).month
          = nextMonthIdx date.month := by
        rw [hdate, hadd]
      have hne := nextMonthIdx_ne date.month h.1
      refine ⟨?_, ?_, ?_⟩
      · rw [hmon, hdn]
        simp only [beq_eq_false_iff_ne, ne_eq, hne, not_false_eq_true, true_iff]
        right
        omega
      · intro hcon
        rw [hdn] at hcon
        omega
      · intro _
        rw [hmon, hdn]
        refine ⟨rfl, ?_⟩
        have hkT2 : ((w1n : ℤ) + ((daysInMonthOf date.year date.month : ℤ) - 1 + ((j : ℤ) + 1)))
            < totalGridDays date := by
          push_cast at hkT
          omega
        omega

/-- Counterexample to claim C9 as stated: for the reference date 2026-02-15
(February 2026 starts on a Sunday and ends on a Saturday) the grid contains
no cell at all with `isCurrentMonth = false`, not exactly one. -/
theorem getDaysInMonth_padding_count_feb2026 :
    ((getDaysInMonth ⟨2026, 1, 15⟩ ⟨2026, 1, 15⟩).flatten.countP
      (fun c => c.isCurrentMonth == false)) ≠ 1 := by decide

/-- Witness for the amended C9 at January 2024: the grid's very first cell
(2023-12-31) is a leading padding cell, shown `isCurrentMonth = false`
through the padding theorem. -/
theorem getDaysInMonth_padding_witness :
    (mkCell ⟨2024, 0, 10⟩ ⟨2024, 0, 10⟩ ((calFirstDay ⟨2024, 0, 10⟩).addDays 0)).isCurrentMonth
      = false :=
  ((getDaysInMonth_padding ⟨2024, 0, 10⟩ ⟨2024, 0, 10⟩ (by decide)
      _ (by decide)).1).mpr (Or.inl (by decide))

/-! ## Instants and events -/

/-- Calendar day number containing a millisecond instant (dayjs
`startOf('day')`, floor division). -/
def dayOf (t : ℤ) : ℤ := t / msPerDay

/-- First day (number) of the week of day `d` (Sunday-first default locale). -/
def weekStartDay (d : ℤ) : ℤ := d - weekdayOfDay d

/-- dayjs `startOf('week')` of an instant, as the midnight instant. -/
def weekStartMs (t : ℤ) : ℤ := weekStartDay (dayOf t) * msPerDay

/-- dayjs `endOf('week')` of an instant: the last millisecond of the week. -/
def weekEndMs (t : ℤ) : ℤ := weekStartMs t + 7 * msPerDay - 1

/-- dayjs `b.diff(a, 'day')`: millisecond difference over a day length,
truncated toward zero (dayjs `absFloor`). -/
def dayDiff (b a : ℤ) : ℤ :=
  if b - a < 0 then -((a - b) / msPerDay) else (b - a) / msPerDay

/-- Structure `CalendarEventProps` of `types/calendar.ts`, restricted to the fields
the layout engine reads; `start`/`end` are millisecond instants. -/
structure CalendarEventProps where
  id : String
  start : ℤ
  «end» : ℤ
  allDay : Bool
  cellSlot : Option ℕ := none
deriving Repr, DecidableEq

/-- Function `getEventsForDay` of `utils/calendar.ts`:
`date.isSame(start, 'day') || date.isSame(end, 'day') ||
 date.isBetween(start, end, 'day', '()')`. -/
def getEventsForDay (date : ℤ) (events : List CalendarEventProps) :
    List CalendarEventProps :=
  events.filter fun event =>
    (dayOf date == dayOf event.start) || (dayOf date == dayOf event.«end»)
      || (decide (dayOf event.start < dayOf date) && decide (dayOf date < dayOf event.«end»))

/-- Claim C3: for well-formed events (start day not after end day),
membership in `getEventsForDay` is exactly inclusive day-interval
membership: the day equals an endpoint's calendar day or lies strictly
between them, i.e. `start ≤ day ≤ end` at day granularity. -/
theorem getEventsForDay_spec (date : ℤ) (events : List CalendarEventProps)
    (e : CalendarEventProps) (he : e ∈ events)
    (hwf : dayOf e.start ≤ dayOf e.«end») :
    e ∈ getEventsForDay date events
      ↔ (dayOf e.start ≤ dayOf date ∧ dayOf date ≤ dayOf e.«end») := by
  unfold getEventsForDay
  rw [List.mem_filter]
  simp only [he, true_and, Bool.or_eq_true, Bool.and_eq_true, beq_iff_eq,
    decide_eq_true_eq]
  omega

/-- The three-day event of the C3 example: 2024-03-01 .. 2024-03-03. -/
def marchEvent : CalendarEventProps :=
  { id := "march"
    start := CalDate.dayNumber ⟨2024, 2, 1⟩ * msPerDay
    «end» := CalDate.dayNumber ⟨2024, 2, 3⟩ * msPerDay
    allDay := false
    cellSlot := none }

/-- Witness for C3: the event 2024-03-01..03 is returned for 2024-03-02 and
not for 2024-03-04 (nor 2024-02-29, by the same instantiation). -/
theorem getEventsForDay_spec_witness :
    (marchEvent ∈ getEventsForDay (CalDate.dayNumber ⟨2024, 2, 2⟩ * msPerDay) [marchEvent])
    ∧ ¬ (marchEvent ∈ getEventsForDay (CalDate.dayNumber ⟨2024, 2, 4⟩ * msPerDay) [marchEvent])
    ∧ ¬ (marchEvent ∈ getEventsForDay (CalDate.dayNumber ⟨2024, 1, 29⟩ * msPerDay) [marchEvent]) :=
  ⟨(getEventsForDay_spec _ [marchEvent] marchEvent (by decide) (by decide)).mpr (by decide),
   fun hc => absurd
     ((getEventsForDay_spec _ [marchEvent] marchEvent (by decide) (by decide)).mp hc)
     (by decide),
   fun hc => absurd
     ((getEventsForDay_spec _ [marchEvent] marchEvent (by decide) (by decide)).mp hc)
     (by decide)⟩

/-! ## Segment geometry (`getEventInfo`) -/

/-- Continuation classification of a segment across week boundaries. -/
inductive MultiWeek where
  | previous
  | next
  | both
deriving Repr, DecidableEq

/-- Result of `getEventInfo`: either the early return `{ show: false }` or
the full record (with `show: true`). -/
inductive EventInfo where
  | hidden
  | shown (left width : ℚ) (isStartDay isMultiDay : Bool) (multiWeek : Option MultiWeek)
deriving Repr, DecidableEq

/-- The `show` field of the result. -/
def EventInfo.isShown : EventInfo → Bool
  | .hidden => false
  | .shown _ _ _ _ _ => true

/-- The `show` flag of `getEventInfo`:
`isStartDay || (isNewWeekStart && cellDate.isAfter(start, 'day') &&
cellDate.isSameOrBefore(end, 'day'))`, where
`isNewWeekStart = cellDate.day() === dayjs().startOf('week').day()` and the
default locale's week starts on weekday `0`. -/
def eventShow (event : CalendarEventProps) (cellDate : ℤ) : Bool :=
  (dayOf cellDate == dayOf event.start)
    || ((weekdayOfDay (dayOf cellDate) == 0)
        && decide (dayOf event.start < dayOf cellDate)
        && decide (dayOf cellDate ≤ dayOf event.«end»))

/-- Source line `segmentStart = start.isBefore(startOfWeek) ? startOfWeek : start`. -/
def segmentStartOf (event : CalendarEventProps) (cellDate : ℤ) : ℤ :=
  if event.start < weekStartMs cellDate then weekStartMs cellDate else event.start

/-- Source line `segmentEnd = end.isAfter(endOfWeek) ? endOfWeek : end`. -/
def segmentEndOf (event : CalendarEventProps) (cellDate : ℤ) : ℤ :=
  if weekEndMs cellDate < event.«end» then weekEndMs cellDate else event.«end»

/-- Source line `segmentStartDayOfWeek = segmentStart.isSameOrAfter(startOfWeek)
? segmentStart.day() : 0`. -/
def segmentStartDayOfWeek (event : CalendarEventProps) (cellDate : ℤ) : ℤ :=
  if weekStartMs cellDate ≤ segmentStartOf event cellDate
  then weekdayOfDay (dayOf (segmentStartOf event cellDate)) else 0

/-- Source line `daysInSegmentThisWeek = segmentEnd.diff(segmentStart, 'day') + 1`. -/
def daysInSegmentThisWeek (event : CalendarEventProps) (cellDate : ℤ) : ℤ :=
  dayDiff (segmentEndOf event cellDate) (segmentStartOf event cellDate) + 1

/-- Source line `left = (segmentStartDayOfWeek * 100) / 7` (percent, exact rational in
place of the `toFixed(2)` string). -/
def eventLeft (event : CalendarEventProps) (cellDate : ℤ) : ℚ :=
  ((segmentStartDayOfWeek event cellDate : ℚ) * 100) / 7

/-- Source line `width = (daysInSegmentThisWeek * 100) / 7` (percent). -/
def eventWidth (event : CalendarEventProps) (cellDate : ℤ) : ℚ :=
  ((daysInSegmentThisWeek event cellDate : ℚ) * 100) / 7

/-- The multi-week classification block of `getEventInfo`. -/
def eventMultiWeek (event : CalendarEventProps) (cellDate : ℤ) : Option MultiWeek :=
  let eventStartWeek := weekStartMs event.start
  let eventEndWeek := weekStartMs event.«end»
  let currentCellWeek := weekStartMs cellDate
  if eventStartWeek < currentCellWeek ∧ currentCellWeek < eventEndWeek then some .both
  else if eventStartWeek < currentCellWeek ∧ eventEndWeek = currentCellWeek then some .previous
  else if eventStartWeek = currentCellWeek ∧ currentCellWeek < eventEndWeek then some .next
  else none

/-- Function `getEventInfo` of `utils/calendar.ts`. -/
def getEventInfo (event : CalendarEventProps) (cellDate : ℤ) : EventInfo :=
  if !(eventShow event cellDate) then .hidden
  else
    .shown (eventLeft event cellDate) (eventWidth event cellDate)
      (dayOf cellDate == dayOf event.start)
      (decide (0 < dayDiff event.«end» event.start))
      (eventMultiWeek event cellDate)

theorem getEventInfo_isShown (event : CalendarEventProps) (cellDate : ℤ) :
    (getEventInfo event cellDate).isShown = eventShow event cellDate := by
  unfold getEventInfo
  by_cases hs : eventShow event cellDate <;> simp [hs, EventInfo.isShown]

theorem dayOf_day_ms (d : ℤ) : dayOf (d * msPerDay) = d := by
  unfold dayOf msPerDay
  omega

/-- Claim C5: `show` is true exactly on the event's true start day or on a
locale week-start cell of a week the event continues into (started before
that week's first day, ends on or after it); consequently, among the 7
cells of any week the event's day-range meets, `show` holds on exactly one
cell. -/
theorem getEventInfo_show_spec (event : CalendarEventProps) (cellDate : ℤ)
    (h : event.start ≤ event.«end») :
    ((getEventInfo event cellDate).isShown = true ↔
      (dayOf cellDate = dayOf event.start
        ∨ (weekdayOfDay (dayOf cellDate) = 0
            ∧ dayOf event.start < weekStartDay (dayOf cellDate)
            ∧ weekStartDay (dayOf cellDate) ≤ dayOf event.«end»)))
    ∧ (∀ ws : ℤ, weekdayOfDay ws = 0 →
        dayOf event.start ≤ ws + 6 → ws ≤ dayOf event.«end» →
        ∃! j : ℕ, j < 7
          ∧ (getEventInfo event ((ws + (j : ℤ)) * msPerDay)).isShown = true) := by
  have hd : dayOf event.start ≤ dayOf event.«end» := by
    unfold dayOf msPerDay
    omega
  constructor
  · rw [getEventInfo_isShown]
    unfold eventShow weekStartDay weekdayOfDay
    simp only [Bool.or_eq_true, Bool.and_eq_true, beq_iff_eq, decide_eq_true_eq]
    omega
  · intro ws hws hs1 hs2
    unfold weekdayOfDay at hws
    have hform : ∀ j : ℕ,
        ((getEventInfo event ((ws + (j : ℤ)) * msPerDay)).isShown = true)
          ↔ (ws + (j : ℤ) = dayOf event.start
              ∨ ((ws + (j : ℤ) + 4) % 7 = 0
                  ∧ dayOf event.start < ws + (j : ℤ)
                  ∧ ws + (j : ℤ) ≤ dayOf event.«end»)) := by
      intro j
      rw [getEventInfo_isShown]
      unfold eventShow weekdayOfDay
      rw [dayOf_day_ms]
      simp only [Bool.or_eq_true, Bool.and_eq_true, beq_iff_eq, decide_eq_true_eq]
      omega
    by_cases hc : ws ≤ dayOf event.start
    · refine ⟨(dayOf event.start - ws).toNat, ⟨by omega, ?_⟩, ?_⟩
      · rw [hform]
        left
        omega
      · intro j hj
        rw [hform] at hj
        omega
    · refine ⟨0, ⟨by omega, ?_⟩, ?_⟩
      · rw [hform]
        right
        omega
      · intro j hj
        rw [hform] at hj
        omega

/-- Witness for C5: a two-day event (days 1..5 since the epoch) is shown on
the Sunday cell (day 3 = 1970-01-04) of the second week it spans. -/
theorem getEventInfo_show_spec_witness :
    (getEventInfo ⟨"w5", msPerDay, 5 * msPerDay, false, none⟩ (3 * msPerDay)).isShown
      = true :=
  (getEventInfo_show_spec ⟨"w5", msPerDay, 5 * msPerDay, false, none⟩ (3 * msPerDay)
    (by decide)).1.mpr (by decide)

theorem segmentStartOf_eq_max (event : CalendarEventProps) (cellDate : ℤ) :
    segmentStartOf event cellDate = max event.start (weekStartMs cellDate) := by
  unfold segmentStartOf
  split_ifs with h1
  · exact (max_eq_right (le_of_lt h1)).symm
  · exact (max_eq_left (by omega)).symm

theorem segmentEndOf_eq_min (event : CalendarEventProps) (cellDate : ℤ) :
    segmentEndOf event cellDate = min event.«end» (weekEndMs cellDate) := by
  unfold segmentEndOf
  split_ifs with h1
  · exact (min_eq_right (le_of_lt h1)).symm
  · exact (min_eq_left (by omega)).symm

/-- For a shown segment of a well-formed event the weekday offset plus the
day span never exceeds the 7 columns of the week. -/
theorem segment_bound (event : CalendarEventProps) (cellDate : ℤ)
    (hse : event.start ≤ event.«end») (hs : eventShow event cellDate = true) :
    0 ≤ segmentStartDayOfWeek event cellDate
    ∧ 1 ≤ daysInSegmentThisWeek event cellDate
    ∧ segmentStartDayOfWeek event cellDate + daysInSegmentThisWeek event cellDate ≤ 7 := by
  unfold eventShow at hs
  simp only [Bool.or_eq_true, Bool.and_eq_true, beq_iff_eq, decide_eq_true_eq] at hs
  unfold weekdayOfDay dayOf msPerDay at hs
  unfold segmentStartDayOfWeek daysInSegmentThisWeek dayDiff segmentStartOf segmentEndOf
    weekEndMs weekStartMs weekStartDay weekdayOfDay dayOf msPerDay
  split_ifs <;> omega

/-- Claim C6: whenever `show` is true (and `end ≥ start`), the returned
geometry clips the event to the cell's week: `left` is the clipped start's
weekday index over 7 (×100%), `width` is the day span of the clipped
segment over 7 (×100%), and `left + width ≤ 100` holds exactly for the
rational values (the source's `toFixed(2)` formats these numbers). -/
theorem getEventInfo_geometry (event : CalendarEventProps) (cellDate : ℤ)
    (hse : event.start ≤ event.«end»)
    (hshow : (getEventInfo event cellDate).isShown = true) :
    getEventInfo event cellDate
      = .shown
          (((weekdayOfDay (dayOf (max event.start (weekStartMs cellDate))) : ℚ) * 100) / 7)
          ((((dayDiff (min event.«end» (weekEndMs cellDate))
              (max event.start (weekStartMs cellDate)) + 1 : ℤ) : ℚ) * 100) / 7)
          (dayOf cellDate == dayOf event.start)
          (decide (0 < dayDiff event.«end» event.start))
          (eventMultiWeek event cellDate)
    ∧ eventLeft event cellDate + eventWidth event cellDate ≤ 100 := by
  rw [getEventInfo_isShown] at hshow
  have hbranch : weekStartMs cellDate ≤ segmentStartOf event cellDate := by
    rw [segmentStartOf_eq_max]
    exact le_max_right _ _
  have hleft : eventLeft event cellDate
      = ((weekdayOfDay (dayOf (max event.start (weekStartMs cellDate))) : ℚ) * 100) / 7 := by
    unfold eventLeft segmentStartDayOfWeek
    rw [if_pos hbranch, segmentStartOf_eq_max]
  have hwidth : eventWidth event cellDate
      = (((dayDiff (min event.«end» (weekEndMs cellDate))
            (max event.start (weekStartMs cellDate)) + 1 : ℤ) : ℚ) * 100) / 7 := by
    unfold eventWidth daysInSegmentThisWeek
    rw [segmentEndOf_eq_min, segmentStartOf_eq_max]
  constructor
  · unfold getEventInfo
    rw [hshow]
    simp only [Bool.not_true, Bool.false_eq_true, if_false]
    rw [← hleft, ← hwidth]
  · have hb := segment_bound event cellDate hse hshow
    have hZ : segmentStartDayOfWeek event cellDate + daysInSegmentThisWeek event cellDate
        ≤ 7 := hb.2.2
    unfold eventLeft eventWidth
    have hcast : ((segmentStartDayOfWeek event cellDate : ℚ)
          + (daysInSegmentThisWeek event cellDate : ℚ)) ≤ 7 := by
      exact_mod_cast hZ
    set a : ℚ := (segmentStartDayOfWeek event cellDate : ℚ)
    set b : ℚ := (daysInSegmentThisWeek event cellDate : ℚ)
    linarith

/-- Witness for C6 at the two-day event of the C5 witness, shown on the
1970-01-04 Sunday cell. -/
theorem getEventInfo_geometry_witness :
    eventLeft ⟨"w6", msPerDay, 5 * msPerDay, false, none⟩ (3 * msPerDay)
      + eventWidth ⟨"w6", msPerDay, 5 * msPerDay, false, none⟩ (3 * msPerDay) ≤ 100 :=
  (getEventInfo_geometry ⟨"w6", msPerDay, 5 * msPerDay, false, none⟩ (3 * msPerDay)
    (by decide) (by decide)).2

/-! ## Slot allocator (`calculateEventLayout`) -/

/-- The comparator of step 3 of `calculateEventLayout`:
`startDiff = a.start.diff(b.start)`; if nonzero return it, else return
`b.end.diff(a.end)` (longer events first). -/
def eventCmp (a b : CalendarEventProps) : ℤ :=
  if a.start - b.start ≠ 0 then a.start - b.start else b.«end» - a.«end»

/-- Stable insertion used to realise JS `Array.prototype.sort` (which is
required to be stable; for the consistent comparator `eventCmp` every
stable sort yields the same output). -/
def insertSorted (le : CalendarEventProps → CalendarEventProps → Bool)
    (a : CalendarEventProps) : List CalendarEventProps → List CalendarEventProps
  | [] => [a]
  | b :: l => if le a b then a :: b :: l else b :: insertSorted le a l

/-- Stable sort (insertion sort) for the event comparators of the source. -/
def stableSort (le : CalendarEventProps → CalendarEventProps → Bool) :
    List CalendarEventProps → List CalendarEventProps
  | [] => []
  | a :: l => insertSorted le a (stableSort le l)

theorem insertSorted_length (le) (a : CalendarEventProps) (l : List CalendarEventProps) :
    (insertSorted le a l).length = l.length + 1 := by
  induction l with
  | nil => rfl
  | cons b l ih =>
    unfold insertSorted
    split_ifs <;> simp [ih]

theorem stableSort_length (le) (l : List CalendarEventProps) :
    (stableSort le l).length = l.length := by
  induction l with
  | nil => rfl
  | cons a l ih =>
    show (insertSorted le a (stableSort le l)).length = l.length + 1
    rw [insertSorted_length, ih]

/-- The `firstDayOfCalendar` of `calculateEventLayout` as a millisecond instant
(the midnight starting the view). -/
def viewFirstMs (monthDate : CalDate) : ℤ := (calFirstDay monthDate).dayNumber * msPerDay

/-- The `lastDayOfCalendar` of `calculateEventLayout` as a millisecond instant
(`endOf('week')`, the last millisecond of the view). -/
def viewLastMs (monthDate : CalDate) : ℤ :=
  ((calLastDay monthDate).dayNumber + 1) * msPerDay - 1

/-- Step 2 of `calculateEventLayout`:
`start.isBefore(lastDayOfCalendar.add(1, 'day')) &&
 end.isSameOrAfter(firstDayOfCalendar)`. -/
def relevantEvents (events : List CalendarEventProps) (firstCalMs lastCalMs : ℤ) :
    List CalendarEventProps :=
  events.filter fun event =>
    decide (event.start < lastCalMs + msPerDay) && decide (firstCalMs ≤ event.«end»)

/-- The day numbers visited by the occupancy loops for one event: from
`start.isBefore(firstDayOfCalendar) ? firstDayOfCalendar : start` stepping
one day at a time while `isSameOrBefore` the clipped last day. -/
def eventDays (firstCalMs lastCalMs : ℤ) (event : CalendarEventProps) : List ℤ :=
  let firstDay := dayOf (if event.start < firstCalMs then firstCalMs else event.start)
  let lastDay := dayOf (if lastCalMs < event.«end» then lastCalMs else event.«end»)
  if lastDay < firstDay then []
  else (List.range ((lastDay - firstDay).toNat + 1)).map fun i => firstDay + (i : ℤ)

/-- The `cellSlot` candidate check: slot `currentY` is free on every day the
event spans within the view (`dailyOccupied?.has(currentY)` fails). -/
def slotFree (currentY : ℕ) (occupied : List (ℤ × ℕ)) (days : List ℤ) : Bool :=
  days.all fun d => !(decide ((d, currentY) ∈ occupied))

/-- The `while (!positionFound)` search of `calculateEventLayout`: starting
from `currentY`, increment until a slot free on all spanned days is found.
The loop is run with explicit fuel; the termination theorem shows the fuel
`occupied.length + 1` always suffices. -/
def findSlot (occupied : List (ℤ × ℕ)) (days : List ℤ) : ℕ → ℕ → ℕ
  | 0, currentY => currentY
  | fuel + 1, currentY =>
    if slotFree currentY occupied days then currentY
    else findSlot occupied days fuel (currentY + 1)

/-- Step 4 of `calculateEventLayout`: place the sorted events in order,
assigning each the first free `cellSlot` and marking the slot occupied on
every day the event spans inside the view. -/
def placeEvents (firstCalMs lastCalMs : ℤ) :
    List CalendarEventProps → List (ℤ × ℕ) → List CalendarEventProps
  | [], _ => []
  | event :: rest, occupied =>
    let days := eventDays firstCalMs lastCalMs event
    let currentY := findSlot occupied days (occupied.length + 1) 0
    { event with cellSlot := some currentY }
      :: placeEvents firstCalMs lastCalMs rest (occupied ++ days.map fun d => (d, currentY))

/-- Function `calculateEventLayout` of `utils/calendar.ts`. -/
def calculateEventLayout (events : List CalendarEventProps) (monthDate : CalDate) :
    List CalendarEventProps :=
  let sortedEvents := stableSort (fun a b => decide (eventCmp a b ≤ 0))
    (relevantEvents events (viewFirstMs monthDate) (viewLastMs monthDate))
  placeEvents (viewFirstMs monthDate) (viewLastMs monthDate) sortedEvents []

theorem slotFree_iff (currentY : ℕ) (occupied : List (ℤ × ℕ)) (days : List ℤ) :
    slotFree currentY occupied days = true ↔ ∀ d ∈ days, ¬ (d, currentY) ∈ occupied := by
  unfold slotFree
  simp

/-- Pigeonhole: some slot no larger than the number of distinct occupied
slot values is free on every day. -/
theorem exists_free_slot (occupied : List (ℤ × ℕ)) (days : List ℤ) :
    ∃ y : ℕ, y ≤ ((occupied.map Prod.snd).toFinset).card
      ∧ slotFree y occupied days = true := by
  set S := (occupied.map Prod.snd).toFinset with hS
  by_cases hall : ∀ y ∈ Finset.range (S.card + 1), y ∈ S
  · exfalso
    have hsub : Finset.range (S.card + 1) ⊆ S := fun y hy => hall y hy
    have := Finset.card_le_card hsub
    simp only [Finset.card_range] at this
    omega
  · push_neg at hall
    obtain ⟨y, hyr, hyS⟩ := hall
    refine ⟨y, by simpa using Nat.lt_succ_iff.mp (Finset.mem_range.mp hyr), ?_⟩
    rw [slotFree_iff]
    intro d _ hmem
    exact hyS (by
      rw [hS]
      exact List.mem_toFinset.mpr (List.mem_map.mpr ⟨(d, y), hmem, rfl⟩))

theorem slotSet_card_le (occupied : List (ℤ × ℕ)) :
    ((occupied.map Prod.snd).toFinset).card ≤ occupied.length := by
  calc ((occupied.map Prod.snd).toFinset).card
      ≤ (occupied.map Prod.snd).length := List.toFinset_card_le _
    _ = occupied.length := List.length_map _ _

/-- With enough fuel, `findSlot` returns the least free slot at or above
the starting candidate. -/
theorem findSlot_spec (occupied : List (ℤ × ℕ)) (days : List ℤ) :
    ∀ (fuel y0 : ℕ),
      (∃ y : ℕ, y0 ≤ y ∧ y < y0 + fuel ∧ slotFree y occupied days = true) →
      slotFree (findSlot occupied days fuel y0) occupied days = true
        ∧ ∀ y : ℕ, y0 ≤ y → slotFree y occupied days = true →
            findSlot occupied days fuel y0 ≤ y := by
  intro fuel
  induction fuel with
  | zero =>
    intro y0 hex
    obtain ⟨y, h1, h2, _⟩ := hex
    omega
  | succ fuel ih =>
    intro y0 hex
    unfold findSlot
    by_cases hfree : slotFree y0 occupied days = true
    · rw [if_pos hfree]
      exact ⟨hfree, fun y hy _ => hy⟩
    · rw [if_neg hfree]
      obtain ⟨y, h1, h2, h3⟩ := hex
      have hy0 : y ≠ y0 := fun hc => hfree (hc ▸ h3)
      have hrec := ih (y0 + 1) ⟨y, by omega, by omega, h3⟩
      refine ⟨hrec.1, fun z hz hzfree => ?_⟩
      have hzy0 : z ≠ y0 := fun hc => hfree (hc ▸ hzfree)
      exact hrec.2 z (by omega) hzfree

theorem findSlot_free (occupied : List (ℤ × ℕ)) (days : List ℤ) :
    slotFree (findSlot occupied days (occupied.length + 1) 0) occupied days = true
    ∧ findSlot occupied days (occupied.length + 1) 0
        ≤ ((occupied.map Prod.snd).toFinset).card
    ∧ ∀ y : ℕ, slotFree y occupied days = true →
        findSlot occupied days (occupied.length + 1) 0 ≤ y := by
  obtain ⟨y, hyc, hyfree⟩ := exists_free_slot occupied days
  have hcard := slotSet_card_le occupied
  have hspec := findSlot_spec occupied days (occupied.length + 1) 0
    ⟨y, by omega, by omega, hyfree⟩
  exact ⟨hspec.1, le_trans (hspec.2 y (by omega) hyfree) hyc,
    fun z hz => hspec.2 z (by omega) hz⟩

/-- Updating `cellSlot` does not change the days an event spans. -/
theorem eventDays_set_slot (firstCalMs lastCalMs : ℤ) (event : CalendarEventProps)
    (s : Option ℕ) :
    eventDays firstCalMs lastCalMs { event with cellSlot := s }
      = eventDays firstCalMs lastCalMs event := rfl

/-- Every event placed starting from occupancy `occ` gets a slot that is
free (with respect to `occ`) on every day it spans. -/
theorem placeEvents_slot_free (firstCalMs lastCalMs : ℤ) :
    ∀ (evs : List CalendarEventProps) (occ : List (ℤ × ℕ))
      (b : CalendarEventProps), b ∈ placeEvents firstCalMs lastCalMs evs occ →
      ∃ y : ℕ, b.cellSlot = some y
        ∧ ∀ d ∈ eventDays firstCalMs lastCalMs b, ¬ (d, y) ∈ occ := by
  intro evs
  induction evs with
  | nil => intro occ b hb; cases hb
  | cons event rest ih =>
    intro occ b hb
    rcases List.mem_cons.mp hb with hb | hb
    · subst hb
      refine ⟨findSlot occ (eventDays firstCalMs lastCalMs event) (occ.length + 1) 0,
        rfl, ?_⟩
      rw [eventDays_set_slot]
      exact (slotFree_iff _ _ _).mp (findSlot_free occ _).1
    · obtain ⟨y, hslot, hfree⟩ := ih _ b hb
      refine ⟨y, hslot, fun d hd hmem => hfree d hd ?_⟩
      exact List.mem_append_left _ hmem

/-- Claim C1 core invariant, over the placement loop: no two placed events
whose clipped-to-window day ranges share a day get the same slot. -/
theorem placeEvents_pairwise (firstCalMs lastCalMs : ℤ) :
    ∀ (evs : List CalendarEventProps) (occ : List (ℤ × ℕ)),
      List.Pairwise
        (fun a b =>
          (∃ d : ℤ, d ∈ eventDays firstCalMs lastCalMs a
            ∧ d ∈ eventDays firstCalMs lastCalMs b) → a.cellSlot ≠ b.cellSlot)
        (placeEvents firstCalMs lastCalMs evs occ) := by
  intro evs
  induction evs with
  | nil => intro occ; exact List.Pairwise.nil
  | cons event rest ih =>
    intro occ
    refine List.Pairwise.cons ?_ (ih _)
    intro b hb hoverlap
    obtain ⟨d, hda, hdb⟩ := hoverlap
    obtain ⟨yb, hbslot, hbfree⟩ := placeEvents_slot_free firstCalMs lastCalMs rest _ b hb
    rw [eventDays_set_slot] at hda
    set ya := findSlot occ (eventDays firstCalMs lastCalMs event) (occ.length + 1) 0 with hya
    have hmem : (d, ya) ∈ occ ++ (eventDays firstCalMs lastCalMs event).map fun x => (x, ya) :=
      List.mem_append_right _ (List.mem_map.mpr ⟨d, hda, rfl⟩)
    have hne : yb ≠ ya := fun hc => hbfree d hdb (hc ▸ hmem)
    show some ya ≠ b.cellSlot
    rw [hbslot]
    intro hc
    exact hne (by injection hc.symm)

/-- Claim C1: in the output of `calculateEventLayout`, any two distinct
events whose clipped-to-window day ranges intersect on at least one view
day have different `cellSlot`s. -/
theorem calculateEventLayout_no_overlap (events : List CalendarEventProps)
    (monthDate : CalDate) :
    List.Pairwise
      (fun a b =>
        (∃ d : ℤ, d ∈ eventDays (viewFirstMs monthDate) (viewLastMs monthDate) a
          ∧ d ∈ eventDays (viewFirstMs monthDate) (viewLastMs monthDate) b) →
        a.cellSlot ≠ b.cellSlot)
      (calculateEventLayout events monthDate) :=
  placeEvents_pairwise (viewFirstMs monthDate) (viewLastMs monthDate) _ []

/-- Witness for C1: the no-overlap invariant instantiated on two concrete
overlapping single-day events in January 2024 — the two events land in
slots 0 and 1. -/
theorem calculateEventLayout_no_overlap_witness :
    List.Pairwise
      (fun a b =>
        (∃ d : ℤ, d ∈ eventDays (viewFirstMs ⟨2024, 0, 10⟩) (viewLastMs ⟨2024, 0, 10⟩) a
          ∧ d ∈ eventDays (viewFirstMs ⟨2024, 0, 10⟩) (viewLastMs ⟨2024, 0, 10⟩) b) →
        a.cellSlot ≠ b.cellSlot)
      (calculateEventLayout
        [⟨"a", CalDate.dayNumber ⟨2024, 0, 10⟩ * msPerDay,
            CalDate.dayNumber ⟨2024, 0, 10⟩ * msPerDay, false, none⟩,
         ⟨"b", CalDate.dayNumber ⟨2024, 0, 10⟩ * msPerDay,
            CalDate.dayNumber ⟨2024, 0, 10⟩ * msPerDay, false, none⟩] ⟨2024, 0, 10⟩) :=
  calculateEventLayout_no_overlap _ ⟨2024, 0, 10⟩

theorem slotSet_card_append (occ : List (ℤ × ℕ)) (days : List ℤ) (y : ℕ) :
    (((occ ++ days.map fun d => (d, y)).map Prod.snd).toFinset).card
      ≤ ((occ.map Prod.snd).toFinset).card + 1 := by
  have hsub : ((occ ++ days.map fun d => (d, y)).map Prod.snd).toFinset
      ⊆ insert y ((occ.map Prod.snd).toFinset) := by
    intro x hx
    rw [List.mem_toFinset, List.map_append, List.mem_append] at hx
    rcases hx with hx | hx
    · exact Finset.mem_insert_of_mem (List.mem_toFinset.mpr hx)
    · rw [List.map_map, List.mem_map] at hx
      obtain ⟨d, _, rfl⟩ := hx
      exact Finset.mem_insert_self _ _
  calc (((occ ++ days.map fun d => (d, y)).map Prod.snd).toFinset).card
      ≤ (insert y ((occ.map Prod.snd).toFinset)).card := Finset.card_le_card hsub
    _ ≤ ((occ.map Prod.snd).toFinset).card + 1 := Finset.card_insert_le _ _

/-- Termination bookkeeping for the placement loop: it is total (one output
per input event), every assigned slot is bounded by the number of distinct
slots already used plus the number of events still to place, and an event
spanning no view day gets slot 0. -/
theorem placeEvents_slots (firstCalMs lastCalMs : ℤ) :
    ∀ (evs : List CalendarEventProps) (occ : List (ℤ × ℕ)),
      (placeEvents firstCalMs lastCalMs evs occ).length = evs.length
      ∧ ∀ b ∈ placeEvents firstCalMs lastCalMs evs occ,
          ∃ y : ℕ, b.cellSlot = some y
            ∧ y ≤ ((occ.map Prod.snd).toFinset).card + evs.length
            ∧ (eventDays firstCalMs lastCalMs b = [] → y = 0) := by
  intro evs
  induction evs with
  | nil => exact fun occ => ⟨rfl, fun b hb => absurd hb (List.not_mem_nil b)⟩
  | cons event rest ih =>
    intro occ
    constructor
    · show _ + 1 = _ + 1
      rw [(ih _).1]
    · intro b hb
      rcases List.mem_cons.mp hb with hb | hb
      · subst hb
        set days := eventDays firstCalMs lastCalMs event with hdays
        refine ⟨findSlot occ days (occ.length + 1) 0, rfl, ?_, ?_⟩
        · have := (findSlot_free occ days).2.1
          omega
        · rw [eventDays_set_slot, ← hdays]
          intro hempty
          have hfree0 : slotFree 0 occ days = true := by
            rw [slotFree_iff, hempty]
            intro d hd
            cases hd
          have := (findSlot_free occ days).2.2 0 hfree0
          omega
      · obtain ⟨y, hslot, hbound, hempty⟩ := (ih _).2 b hb
        refine ⟨y, hslot, ?_, hempty⟩
        have := slotSet_card_append occ (eventDays firstCalMs lastCalMs event)
          (findSlot occ (eventDays firstCalMs lastCalMs event) (occ.length + 1) 0)
        have hlen : (event :: rest).length = rest.length + 1 := rfl
        omega

/-- Claim C10: `calculateEventLayout` is total — the fuelled slot search
always succeeds within `occupied.length + 1` candidates (the set of
occupied slot indices on any day is bounded by the events already placed),
so every relevant event is emitted, each with a slot bounded by the number
of relevant events; an event whose clipped day range is empty (e.g. a
degenerate `end < start` input entirely outside the window ordering) is
assigned slot 0. -/
theorem calculateEventLayout_terminates (events : List CalendarEventProps)
    (monthDate : CalDate) :
    (calculateEventLayout events monthDate).length
        = (relevantEvents events (viewFirstMs monthDate) (viewLastMs monthDate)).length
    ∧ ∀ b ∈ calculateEventLayout events monthDate,
        ∃ y : ℕ, b.cellSlot = some y
          ∧ y ≤ (relevantEvents events (viewFirstMs monthDate) (viewLastMs monthDate)).length
          ∧ (eventDays (viewFirstMs monthDate) (viewLastMs monthDate) b = [] → y = 0) := by
  unfold calculateEventLayout
  have h := placeEvents_slots (viewFirstMs monthDate) (viewLastMs monthDate)
    (stableSort (fun a b => decide (eventCmp a b ≤ 0))
      (relevantEvents events (viewFirstMs monthDate) (viewLastMs monthDate))) []
  rw [stableSort_length] at h
  refine ⟨h.1, fun b hb => ?_⟩
  obtain ⟨y, hslot, hbound, hempty⟩ := h.2 b hb
  refine ⟨y, hslot, ?_, hempty⟩
  simpa using hbound

/-- Witness for C10: a concrete degenerate event (`end < start`, both
inside the February 2024 window, hence relevant with an empty clipped day
range) is still emitted — the search terminates and the output has one
entry per relevant event. -/
theorem calculateEventLayout_terminates_witness :
    (calculateEventLayout
      [⟨"d", CalDate.dayNumber ⟨2024, 1, 20⟩ * msPerDay,
          CalDate.dayNumber ⟨2024, 1, 10⟩ * msPerDay, false, none⟩] ⟨2024, 1, 10⟩).length
      = (relevantEvents
          [⟨"d", CalDate.dayNumber ⟨2024, 1, 20⟩ * msPerDay,
              CalDate.dayNumber ⟨2024, 1, 10⟩ * msPerDay, false, none⟩]
          (viewFirstMs ⟨2024, 1, 10⟩) (viewLastMs ⟨2024, 1, 10⟩)).length :=
  (calculateEventLayout_terminates _ ⟨2024, 1, 10⟩).1

/-! ## Sort-order claim (C4) -/

/-- An event spanning more than one calendar day. -/
def isMultiDayEvent (e : CalendarEventProps) : Prop := dayOf e.start < dayOf e.«end»

instance (e : CalendarEventProps) : Decidable (isMultiDayEvent e) := by
  unfold isMultiDayEvent; infer_instance

/-- Modelled from the spec (§4.3 step 3, for comparison with the source's
comparator): "all-day events before timed events; within each group,
multi-day events before single-day events; ties broken by earlier start,
then by longer duration (longer first)": `a` strictly precedes `b`. -/
def specPriorityLt (a b : CalendarEventProps) : Prop :=
  (a.allDay = true ∧ b.allDay = false)
  ∨ (a.allDay = b.allDay ∧ isMultiDayEvent a ∧ ¬ isMultiDayEvent b)
  ∨ (a.allDay = b.allDay ∧ (isMultiDayEvent a ↔ isMultiDayEvent b) ∧ a.start < b.start)
  ∨ (a.allDay = b.allDay ∧ (isMultiDayEvent a ↔ isMultiDayEvent b)
      ∧ a.start = b.start ∧ b.«end» - b.start < a.«end» - a.start)

instance (a b : CalendarEventProps) : Decidable (specPriorityLt a b) := by
  unfold specPriorityLt; infer_instance

/-- Counterexample to claim C4 as stated: the spec's priority order puts
the all-day event (starting one day later) first, but the source comparator
orders purely by start instant, keeping the timed earlier event first: the
comparator does not realise the spec's order. -/
theorem eventCmp_counterexample :
    specPriorityLt ⟨"allday", msPerDay, msPerDay, true, none⟩ ⟨"timed", 0, 0, false, none⟩
    ∧ eventCmp ⟨"timed", 0, 0, false, none⟩ ⟨"allday", msPerDay, msPerDay, true, none⟩ < 0
    ∧ stableSort (fun a b => decide (eventCmp a b ≤ 0))
        [⟨"timed", 0, 0, false, none⟩, ⟨"allday", msPerDay, msPerDay, true, none⟩]
        = [⟨"timed", 0, 0, false, none⟩, ⟨"allday", msPerDay, msPerDay, true, none⟩] := by
  refine ⟨?_, by decide, by decide⟩
  decide

/-- Claim C4 (amended): the comparator of `calculateEventLayout` realises
exactly the order "earlier start instant first, ties broken by later end
(longer duration) first"; the `allDay` flag and multi-day status are not
consulted. -/
theorem eventCmp_spec (a b : CalendarEventProps) :
    (eventCmp a b < 0 ↔ (a.start < b.start ∨ (a.start = b.start ∧ b.«end» < a.«end»)))
    ∧ (eventCmp a b = 0 ↔ (a.start = b.start ∧ a.«end» = b.«end»))
    ∧ eventCmp a b = eventCmp { a with allDay := !a.allDay } b := by
  refine ⟨?_, ?_, rfl⟩ <;>
  · unfold eventCmp
    split_ifs <;> omega

/-! ## Per-day visibility resolver (month view of `agenda-view.tsx`) -/

/-- The per-day sort of the visibility passes:
`(a.cellSlot ?? 0) - (b.cellSlot ?? 0)` ascending. -/
def slotLe (a b : CalendarEventProps) : Bool :=
  decide ((a.cellSlot.getD 0) ≤ (b.cellSlot.getD 0))

/-- The week pre-pass (lines 79-91): for each cell of the week, if the
day's events overflow `visibleCount`, mark every event from position
`visibleCount - 1` on as hidden for the whole week. -/
def hiddenIdsForWeek (week : List ℤ) (layoutForThisWeek : List CalendarEventProps)
    (visibleCount : ℕ) : List String :=
  if 0 < visibleCount then
    week.foldl
      (fun hiddenIds cellDate =>
        let dayEventsForCheck := getEventsForDay cellDate layoutForThisWeek
        let sortedEventsForCheck := stableSort slotLe dayEventsForCheck
        let overflowingItemsCheck := sortedEventsForCheck.length - visibleCount
        if 0 < overflowingItemsCheck then
          hiddenIds ++ (sortedEventsForCheck.drop (visibleCount - 1)).map (fun e => e.id)
        else hiddenIds)
      []
  else []

/-- The per-cell visibility computation (lines 108-120): slot-sorted day
events, minus the week's hidden ids, truncated to `visibleCount - 1` rows
when the day overflows; second component is `hiddenEventsCount`. -/
def getDayVisibilityData (cellDate : ℤ) (layoutForThisWeek : List CalendarEventProps)
    (hiddenIdsThisWeek : List String) (visibleCount : ℕ) :
    List CalendarEventProps × ℕ :=
  let dayEvents := getEventsForDay cellDate layoutForThisWeek
  let originalOverflowingItems := dayEvents.length - visibleCount
  let sortedEvents := stableSort slotLe dayEvents
  let displayableEvents := sortedEvents.filter fun event =>
    !(decide (event.id ∈ hiddenIdsThisWeek))
  let visibleEvents :=
    if 0 < originalOverflowingItems then
      displayableEvents.take (if 0 < visibleCount then visibleCount - 1 else 0)
    else displayableEvents
  (visibleEvents, sortedEvents.length - visibleEvents.length)

/-- Claim C7: on a day whose events outnumber `visibleCount > 0`, at most
`visibleCount - 1` events are shown (one row reserved for the overflow
indicator), no shown event is in the week's hidden set, and
`hiddenEventsCount` is the day's total minus the shown count. -/
theorem getDayVisibilityData_spec (cellDate : ℤ)
    (layoutForThisWeek : List CalendarEventProps) (hiddenIdsThisWeek : List String)
    (visibleCount : ℕ) (hvc : 0 < visibleCount)
    (hover : visibleCount < (getEventsForDay cellDate layoutForThisWeek).length) :
    (getDayVisibilityData cellDate layoutForThisWeek hiddenIdsThisWeek visibleCount).1.length
        ≤ visibleCount - 1
    ∧ (∀ e ∈ (getDayVisibilityData cellDate layoutForThisWeek hiddenIdsThisWeek
          visibleCount).1, ¬ e.id ∈ hiddenIdsThisWeek)
    ∧ (getDayVisibilityData cellDate layoutForThisWeek hiddenIdsThisWeek visibleCount).2
        = (getEventsForDay cellDate layoutForThisWeek).length
          - (getDayVisibilityData cellDate layoutForThisWeek hiddenIdsThisWeek
              visibleCount).1.length := by
  unfold getDayVisibilityData
  simp only
  rw [if_pos (by omega), if_pos hvc]
  refine ⟨?_, ?_, ?_⟩
  · rw [List.length_take]
    omega
  · intro e he
    have hf := List.mem_of_mem_take he
    have := (List.mem_filter.mp hf).2
    simpa using this
  · rw [stableSort_length]

/-- Five single-day events on epoch day 0, pre-assigned slots 0..4. -/
def fiveEvents : List CalendarEventProps :=
  [⟨"e0", 0, 0, false, some 0⟩, ⟨"e1", 0, 0, false, some 1⟩,
   ⟨"e2", 0, 0, false, some 2⟩, ⟨"e3", 0, 0, false, some 3⟩,
   ⟨"e4", 0, 0, false, some 4⟩]

/-- The 7 cell instants of the week of epoch day 0 (whose week starts on
day -4, a Sunday). -/
def sampleWeek : List ℤ :=
  [-4 * msPerDay, -3 * msPerDay, -2 * msPerDay, -1 * msPerDay, 0, msPerDay, 2 * msPerDay]

/-- Witness for C7: five single-day events on one date with
`visibleCount = 3` yield exactly 2 visible events and `hiddenCount = 3`. -/
theorem getDayVisibilityData_spec_witness :
    (getDayVisibilityData 0 fiveEvents (hiddenIdsForWeek sampleWeek fiveEvents 3) 3).1.length
        ≤ 3 - 1
    ∧ (getDayVisibilityData 0 fiveEvents (hiddenIdsForWeek sampleWeek fiveEvents 3) 3).1.length
        = 2
    ∧ (getDayVisibilityData 0 fiveEvents (hiddenIdsForWeek sampleWeek fiveEvents 3) 3).2 = 3 :=
  ⟨(getDayVisibilityData_spec 0 fiveEvents (hiddenIdsForWeek sampleWeek fiveEvents 3) 3
      (by decide) (by decide)).1,
   by decide, by decide⟩
